import Mathlib

/-!
Verification of the fiber-cable datasheet scraper (`src/scraper.py`).

The Python source is shallowly embedded: every extraction routine becomes a
total, executable Lean function over `String` / `List Char`.  Python regular
expressions are embedded as explicit character scanners that reproduce the
backtracking semantics of the concrete pattern used at each site (the
derivation of each scanner from its pattern is documented at the definition).
Python exceptions are modelled by `Option` (`none` = raised); since every
embedded routine is a total function, field extraction can never raise, which
models the "never raises" clauses of the specification.
-/

namespace Scraper

/-! ### Python string primitives -/

/-- Python's `\s` character class (ASCII part): space, tab, newline, carriage
return, vertical tab, form feed. -/
def pySpace (c : Char) : Bool :=
  c = ' ' ∨ c = '\t' ∨ c = '\n' ∨ c = '\r' ∨ c = '\x0b' ∨ c = '\x0c'

/-- `needle` occurs at the head of `hay` (case-sensitive). -/
def leadMatch : List Char → List Char → Bool
  | [], _ => true
  | _ :: _, [] => false
  | a :: as, b :: bs => a = b && leadMatch as bs

/-- Python's `needle in hay` substring test (case-sensitive). -/
def hasSub (needle : List Char) : List Char → Bool
  | [] => leadMatch needle []
  | c :: cs => leadMatch needle (c :: cs) || hasSub needle cs

/-- Python `sub in s` on `String`s. -/
def pyContains (hay sub : String) : Bool :=
  hasSub sub.toList hay.toList

/-- Python `str.lower` (ASCII). -/
def pyLower (s : String) : String :=
  String.mk (s.toList.map Char.toLower)

/-- Case-insensitive substring test, as Python's `a.lower() in b.lower()`. -/
def ciContains (hay sub : String) : Bool :=
  pyContains (pyLower hay) (pyLower sub)

/-- Python `str.strip` on a character list. -/
def stripL (l : List Char) : List Char :=
  ((l.dropWhile pySpace).reverse.dropWhile pySpace).reverse

/-- Python `str.strip` on `String`s. -/
def pyStrip (s : String) : String :=
  String.mk (stripL s.toList)

/-- Python `text.split('\n')` (keeps empty pieces, result is never empty). -/
def splitNlL : List Char → List (List Char)
  | [] => [[]]
  | c :: cs =>
    if c = '\n' then [] :: splitNlL cs
    else
      match splitNlL cs with
      | l :: ls => (c :: l) :: ls
      | [] => [[c]]

/-- `text.split('\n')` on `String`s. -/
def splitNl (s : String) : List String :=
  (splitNlL s.toList).map String.mk

/-- Remove every occurrence of a character (Python `s.replace(c, '')`). -/
def removeChar (c : Char) (l : List Char) : List Char :=
  l.filter (fun d => d ≠ c)

/-- Remove every occurrence of a character, on `String`s. -/
def removeCharS (c : Char) (s : String) : String :=
  String.mk (removeChar c s.toList)

/-- Python `'sep'.join(xs)`. -/
def joinSep (sep : String) : List String → String
  | [] => ""
  | [s] => s
  | s :: rest => s ++ sep ++ joinSep sep rest

/-- Python `str.capitalize`: first character upper-cased, the rest lower-cased
(ASCII). -/
def pyCapitalize (s : String) : String :=
  match s.toList with
  | [] => ""
  | c :: cs => String.mk (c.toUpper :: cs.map Char.toLower)

/-- Numeric value of a digit string, as Python `int` on `\d+` matches. -/
def natOfDigits (s : String) : Nat :=
  s.toList.foldl (fun n c => n * 10 + (c.toNat - 48)) 0

/-! ### Table Locator (`_get_value_from_table`)

`re.split(r',,|,|\s{2,}', line)`: scanning left to right, `,,` splits (two
characters), a single `,` splits, and a maximal run of two or more whitespace
characters splits (the `\s{2,}` quantifier is greedy, so the whole run is the
delimiter); a single whitespace character stays inside the cell. -/

/-- One step of the cell splitter.  The scanner looks at the current character
`c` with the rest of the input as the recursion argument; `acc` is the
reversed current cell; `skipping = true` means the scanner is inside a
`\s{2,}` delimiter run whose cell has already been emitted. -/
def splitCellsGo (skipping : Bool) (acc0 : List Char) (c : Char) : List Char → List (List Char)
  | [] =>
    if skipping && pySpace c then [[]]
    else
      let acc := if skipping then [] else acc0
      if c = ',' then [acc.reverse, []] else [(c :: acc).reverse]
  | d :: rest =>
    if skipping && pySpace c then splitCellsGo true [] d rest
    else
      let acc := if skipping then [] else acc0
      if c = ',' then
        if d = ',' then
          match rest with
          | [] => [acc.reverse, []]
          | e :: rest2 => acc.reverse :: splitCellsGo false [] e rest2
        else acc.reverse :: splitCellsGo false [] d rest
      else if pySpace c then
        if pySpace d then acc.reverse :: splitCellsGo true [] d rest
        else splitCellsGo false (c :: acc) d rest
      else splitCellsGo false (c :: acc) d rest

/-- `re.split(r',,|,|\s{2,}', s)`. -/
def splitCells (s : String) : List String :=
  match s.toList with
  | [] => [""]
  | c :: rest => (splitCellsGo false [] c rest).map String.mk

/-- Header-line test of `_get_value_from_table`:
`"Fibre Count" in line and any(fc + "F" in line for fc in fiber_counts)`. -/
def isHeaderLine (fiber_counts : List String) (line : String) : Bool :=
  pyContains line "Fibre Count" && fiber_counts.any (fun fc => pyContains line (fc ++ "F"))

/-- Index of the last element of `parts` containing `sub`
(the inner `for idx, part in enumerate(header_parts)` loop overwrites earlier
indices, so the last match wins). -/
def lastIdxWith (sub : String) (parts : List String) : Option Nat :=
  (List.range parts.length).foldl
    (fun acc idx => if pyContains (parts.getD idx "") sub then some idx else acc) none

/-- The `col_map` dictionary: for each fiber count, the last header cell
containing `fc + "F"`, if any. -/
def buildColMap (fiber_counts : List String) (header_parts : List String) :
    List (String × Nat) :=
  fiber_counts.foldl
    (fun m fc =>
      match lastIdxWith (fc ++ "F") header_parts with
      | some idx => (m.filter (fun e => e.1 ≠ fc)) ++ [(fc, idx)]
      | none => m)
    []

/-- Dictionary lookup (`col_map.get`). -/
def assocFind (m : List (String × Nat)) (k : String) : Option Nat :=
  match m.find? (fun e => e.1 = k) with
  | some e => some e.2
  | none => none

/-- Clean a resolved cell: `.replace('$', '').replace('"', '').strip()`. -/
def cleanCell (s : String) : String :=
  pyStrip (removeCharS '"' (removeCharS '$' s))

/-- The row-scanning loop of `_get_value_from_table` (lines after the header).
Mirrors the Python control flow: a line not containing the parameter, or a
matching line that reaches the end of the body without a `return`, falls
through to the next line. -/
def rowScan (cmap : List (String × Nat)) (current_fc parameter : String) :
    List String → Option String
  | [] => none
  | line :: rest =>
    if ciContains line parameter then
      let parts := splitCells (pyStrip line)
      match assocFind cmap current_fc with
      | some fc_col =>
        let t : Int := if ciContains (parts.headD "") parameter then (fc_col : Int) else (fc_col : Int) - 1
        if 0 ≤ t ∧ t < (parts.length : Int) then
          let v := cleanCell (parts.getD t.toNat "")
          if v = "" ∧ 0 < t then some (cleanCell (parts.getD (t.toNat - 1) ""))
          else some v
        else if 1 < parts.length then some (cleanCell (parts.getD 1 ""))
        else rowScan cmap current_fc parameter rest
      | none =>
        if 1 < parts.length then some (cleanCell (parts.getD 1 ""))
        else rowScan cmap current_fc parameter rest
    else rowScan cmap current_fc parameter rest

/-- The header-searching loop of `_get_value_from_table`: the first header
line wins (`break`), and scanning for the parameter continues on the lines
after it. -/
def tableScan (fiber_counts : List String) (current_fc parameter : String) :
    List String → Option String
  | [] => none
  | line :: rest =>
    if isHeaderLine fiber_counts line then
      rowScan (buildColMap fiber_counts (splitCells (pyStrip line))) current_fc parameter rest
    else tableScan fiber_counts current_fc parameter rest

/-- `_get_value_from_table(text, fiber_counts, current_fc, parameter)`.
`None` is embedded as `none`. -/
def _get_value_from_table (text : String) (fiber_counts : List String)
    (current_fc parameter : String) : Option String :=
  tableScan fiber_counts current_fc parameter (splitNl text)

/-! ### Regex scanners

Each Python `re.search` call site is embedded as a scanner that reproduces the
leftmost-match-with-backtracking semantics of its concrete pattern, derived at
the definition. -/

/-- `re.search` position loop: try `f` at every suffix, leftmost match wins. -/
def scanFor (f : List Char → Option α) : List Char → Option α
  | [] => f []
  | c :: cs =>
    match f (c :: cs) with
    | some r => some r
    | none => scanFor f cs

/-- Case-insensitive literal at the head; returns the remaining input. -/
def ciDropLit : List Char → List Char → Option (List Char)
  | [], rest => some rest
  | _ :: _, [] => none
  | a :: as, b :: bs => if a.toLower = b.toLower then ciDropLit as bs else none

/-- Case-sensitive literal at the head; returns the remaining input. -/
def csDropLit : List Char → List Char → Option (List Char)
  | [], rest => some rest
  | _ :: _, [] => none
  | a :: as, b :: bs => if a = b then csDropLit as bs else none

/-- Index of the last occurrence of `c` in `l`. -/
def lastIdxOf (c : Char) (l : List Char) : Option Nat :=
  match l.reverse.findIdx? (fun d => d = c) with
  | some r => some (l.length - 1 - r)
  | none => none

/-- `re.sub(r'\s+', ' ', s)`: collapse every whitespace run to one space. -/
def squeezeGo (prevWs : Bool) : List Char → List Char
  | [] => []
  | c :: cs =>
    if pySpace c then
      if prevWs then squeezeGo true cs else ' ' :: squeezeGo true cs
    else c :: squeezeGo false cs

/-- Tail of `Technical Specifications\s*\n(.*?)\s*\n` (IGNORECASE | DOTALL)
after the literal.  Derivation: the greedy `\s*\n` consumes the maximal
whitespace run up to its last newline; the lazy `(.*?)\s*\n` then captures up
to the start of the whitespace run preceding the next newline; if no later
newline exists, the first `\s*` backtracks to the run's previous newline,
leaving an empty capture (possible only when the run held two newlines). -/
def descTail (cs : List Char) : Option (List Char) :=
  let w := cs.takeWhile pySpace
  match lastIdxOf '\n' w with
  | none => none
  | some a =>
    let rest := cs.drop (a + 1)
    match rest.findIdx? (fun c => c = '\n') with
    | some n2 => some (((rest.take n2).reverse.dropWhile pySpace).reverse)
    | none => if 2 ≤ w.count '\n' then some [] else none

/-- One search position of `_get_cable_description`'s pattern. -/
def descStep (cs : List Char) : Option (List Char) :=
  match ciDropLit "technical specifications".toList cs with
  | none => none
  | some rest => descTail rest

/-- `_get_cable_description(text)`. -/
def _get_cable_description (text : String) : String :=
  match scanFor descStep text.toList with
  | none => "N/A"
  | some g => pyStrip (String.mk (squeezeGo false g))

/-- One search position of `Number of loose tubes\s*.*?(\d+)` (IGNORECASE).
After the literal the greedy `\s*` crosses newlines, then the lazy `.*?`
scans the current line (`.` excludes newlines) up to the first digit; the
group is the maximal digit run there. -/
def looseTubesStep (cs : List Char) : Option Nat :=
  match ciDropLit "number of loose tubes".toList cs with
  | none => none
  | some rest =>
    let seg := (rest.dropWhile pySpace).takeWhile (fun c => c ≠ '\n')
    let ds := (seg.dropWhile (fun c => ¬ c.isDigit)).takeWhile Char.isDigit
    if ds.isEmpty then none else some (natOfDigits (String.mk ds))

/-- `_get_tube_type(text)`. -/
def _get_tube_type (text : String) : String :=
  if pyContains text "Unitube" then "Unitube"
  else if pyContains text "Multitube" then "Multitube"
  else
    match scanFor looseTubesStep text.toList with
    | some n => if n = 1 then "Unitube" else "Multitube"
    | none => "N/A"

/-- `G\.65\d` occurs at the head (case-insensitively). -/
def g65At (l : List Char) : Bool :=
  match l with
  | a :: b :: c :: d :: e :: _ => a.toLower = 'g' && b = '.' && c = '6' && d = '5' && e.isDigit
  | _ => false

/-- `G\.65\d` occurs somewhere in `l`. -/
def hasG65 : List Char → Bool
  | [] => false
  | c :: cs => g65At (c :: cs) || hasG65 cs

/-- One search position of
`Fibre Type\s*\"?([^\n\"]*G\.65\d[^\n\"]*|OM\d)` (IGNORECASE).
The first branch captures the maximal `[^\n"]` run after the optional quote
when it contains `G.65<digit>`; otherwise the second branch captures a
literal `OM<digit>`. -/
def fiberTypeStep (cs : List Char) : Option (List Char) :=
  match ciDropLit "fibre type".toList cs with
  | none => none
  | some rest =>
    let afterW := rest.dropWhile pySpace
    let afterQ :=
      match afterW with
      | '"' :: t => t
      | _ => afterW
    let run := afterQ.takeWhile (fun c => c ≠ '\n' && c ≠ '"')
    if hasG65 run then some run
    else
      match afterQ with
      | a :: b :: c :: _ =>
        if a.toLower = 'o' && b.toLower = 'm' && c.isDigit then some [a, b, c] else none
      | _ => none

/-- `_get_raw_fiber_type(text)`. -/
def _get_raw_fiber_type (text : String) : String :=
  match scanFor fiberTypeStep text.toList with
  | none => "N/A"
  | some g => removeCharS '"' (removeCharS '$' (pyStrip (String.mk g)))

/-- Characters before the first occurrence of `lit` (none if `lit` absent). -/
def findAtLit (lit : List Char) : List Char → Option (List Char)
  | [] => if leadMatch lit [] then some [] else none
  | c :: cs =>
    if leadMatch lit (c :: cs) then some []
    else
      match findAtLit lit cs with
      | some pre => some (c :: pre)
      | none => none

/-- One search position of
`Environmental Performance\s*([\s\S]*?)IEC-60794-1-22-F1` (no flags, so both
literals are case-sensitive): after the literal, the greedy `\s*` takes the
maximal whitespace run, and the lazy group captures up to the first later
occurrence of the closing literal. -/
def envStep (cs : List Char) : Option (List Char) :=
  match csDropLit "Environmental Performance".toList cs with
  | none => none
  | some rest => findAtLit "IEC-60794-1-22-F1".toList (rest.dropWhile pySpace)

/-- Dictionary insertion: overwrite in place or append
(Python `dict` insertion-order semantics). -/
def upsert (acc : List (String × String)) (k v : String) : List (String × String) :=
  if acc.any (fun e => e.1 = k) then acc.map (fun e => if e.1 = k then (k, v) else e)
  else acc ++ [(k, v)]

/-- The pairing loop of `_get_environmental_performance`: a line containing
`°C` is a temperature range keyed by the capitalized following line; the last
line never inserts. -/
def envLoop (acc : List (String × String)) (cur : String) : List String → List (String × String)
  | [] => acc
  | nxt :: rest =>
    envLoop (if pyContains cur "°C" then upsert acc (pyCapitalize nxt) cur else acc) nxt rest

/-- `_get_environmental_performance(text)`. -/
def _get_environmental_performance (text : String) : String :=
  match scanFor envStep text.toList with
  | none => "N/A"
  | some block =>
    let lines := (((splitNlL block).map stripL).filter (fun l => l ≠ [])).map String.mk
    let conds :=
      match lines with
      | [] => []
      | l :: ls => envLoop [] l ls
    joinSep "  " (conds.map (fun e => e.1 ++ " " ++ e.2))

/-- The `[\w\s,]` class of `_get_tube_colors` (note `\s` includes newlines). -/
def tubeColorCls (c : Char) : Bool :=
  c.isAlpha || c.isDigit || c = '_' || pySpace c || c = ','

/-- Backtracking helper: try `f` at `k, k-1, …, 0` (greedy quantifier order). -/
def tryKs (f : Nat → Option α) : Nat → Option α
  | 0 => f 0
  | k + 1 =>
    match f (k + 1) with
    | some r => some r
    | none => tryKs f k

/-- The `\s*([\w\s,]+)\n` part of `_get_tube_colors`'s pattern, applied after
a matched line break: for each greedy split of the leading whitespace run, the
class run from that point is captured up to its last interior newline. -/
def tubeColorsInner (afterB : List Char) : Option (List Char) :=
  tryKs
    (fun k2 =>
      let rk := afterB.drop k2
      let run := rk.takeWhile tubeColorCls
      match lastIdxOf '\n' run with
      | some d => if 1 ≤ d then some (run.take d) else none
      | none => none)
    (afterB.takeWhile pySpace).length

/-- One search position of `Tube Colour\s*.*\n\s*([\w\s,]+)\n` (IGNORECASE):
for each greedy split of the whitespace run after the literal, `.*\n` reaches
the first following newline, then `tubeColorsInner` captures on the next
line(s). -/
def tubeColorsStep (cs : List Char) : Option (List Char) :=
  match ciDropLit "tube colour".toList cs with
  | none => none
  | some rest =>
    tryKs
      (fun k =>
        let rk := rest.drop k
        match rk.findIdx? (fun c => c = '\n') with
        | none => none
        | some b => tubeColorsInner (rk.drop (b + 1)))
      (rest.takeWhile pySpace).length

/-- One step of `re.split(r'\s{2,}|,', s)` (same splitting rule as the table
cells, but a single `,` is the only comma delimiter). -/
def splitColorsGo (skipping : Bool) (acc0 : List Char) (c : Char) : List Char → List (List Char)
  | [] =>
    if skipping && pySpace c then [[]]
    else
      let acc := if skipping then [] else acc0
      if c = ',' then [acc.reverse, []] else [(c :: acc).reverse]
  | d :: rest =>
    if skipping && pySpace c then splitColorsGo true [] d rest
    else
      let acc := if skipping then [] else acc0
      if c = ',' then acc.reverse :: splitColorsGo false [] d rest
      else if pySpace c then
        if pySpace d then acc.reverse :: splitColorsGo true [] d rest
        else splitColorsGo false (c :: acc) d rest
      else splitColorsGo false (c :: acc) d rest

/-- `re.split(r'\s{2,}|,', s)`. -/
def splitColors (s : String) : List String :=
  match s.toList with
  | [] => [""]
  | c :: rest => (splitColorsGo false [] c rest).map String.mk

/-- `_get_tube_colors(text)`. -/
def _get_tube_colors (text : String) : String :=
  match scanFor tubeColorsStep text.toList with
  | none => "N/A"
  | some g =>
    let pieces := splitColors (pyStrip (String.mk g))
    joinSep ", " ((pieces.filter (fun s => s ≠ "")).map pyStrip)

/-- `\d+\s*N` at the head (trailing `N` case-insensitive): maximal digit run,
maximal whitespace run, then `N`.  Returns the group and the rest. -/
def numWsNRem (cs : List Char) : Option (List Char × List Char) :=
  let ds := cs.takeWhile Char.isDigit
  if ds.isEmpty then none
  else
    let r1 := cs.drop ds.length
    let ws := r1.takeWhile pySpace
    match r1.drop ws.length with
    | c :: r2 => if c.toLower = 'n' then some (ds ++ ws ++ [c], r2) else none
    | [] => none

/-- `(\d+\s*N)` at the head. -/
def numWsN (cs : List Char) : Option (List Char) :=
  (numWsNRem cs).map (fun r => r.1)

/-- `(?:Installation|Short Term)\s*[:\s]*(\d+\s*N)` at the head (IGNORECASE):
the two whitespace/colon quantifiers combine into one maximal `[\s:]` run. -/
def instShortTail (cs : List Char) : Option (List Char) :=
  let kwRest :=
    match ciDropLit "installation".toList cs with
    | some r => some r
    | none => ciDropLit "short term".toList cs
  match kwRest with
  | none => none
  | some rest => numWsN (rest.dropWhile (fun c => pySpace c || c = ':'))

/-- First tensile pattern
`Tensile Strength[\s\S]*?(?:Installation|Short Term)\s*[:\s]*(\d+\s*N)`. -/
def tensileScan1 (cs : List Char) : Option (List Char) :=
  scanFor
    (fun s =>
      match ciDropLit "tensile strength".toList s with
      | none => none
      | some rest => scanFor instShortTail rest)
    cs

/-- Second tensile pattern `Tensile Strength[\s\S]*?(\d+\s*N)`. -/
def tensileScan2 (cs : List Char) : Option (List Char) :=
  scanFor
    (fun s =>
      match ciDropLit "tensile strength".toList s with
      | none => none
      | some rest => scanFor numWsN rest)
    cs

/-- `_get_generic_value(text, 'Tensile Strength', tensile_patterns)`:
first pattern wins, group stripped, sentinel on total miss. -/
def genericTensile (text : String) : String :=
  match tensileScan1 text.toList with
  | some g => pyStrip (String.mk g)
  | none =>
    match tensileScan2 text.toList with
    | some g => pyStrip (String.mk g)
    | none => "N/A"

/-- The `[/0-9\s.xcm]` class (IGNORECASE, so `x`, `c`, `m` match either case). -/
def crushCls (c : Char) : Bool :=
  c.isDigit || pySpace c || c = '/' || c = '.' || c.toLower = 'x' || c.toLower = 'c' || c.toLower = 'm'

/-- `(\d+\s*N[/0-9\s.xcm]+)` at the head. -/
def crushTail1 (cs : List Char) : Option (List Char) :=
  match numWsNRem cs with
  | none => none
  | some (g, rest) =>
    let run := rest.takeWhile crushCls
    if run.isEmpty then none else some (g ++ run)

/-- First crush pattern `Crush Resistance[\s\S]*?(\d+\s*N[/0-9\s.xcm]+)`. -/
def crushScan1 (cs : List Char) : Option (List Char) :=
  scanFor
    (fun s =>
      match ciDropLit "crush resistance".toList s with
      | none => none
      | some rest => scanFor crushTail1 rest)
    cs

/-- Second crush pattern `Crush Resistance[\s\S]*?(\d+\s*N)`. -/
def crushScan2 (cs : List Char) : Option (List Char) :=
  scanFor
    (fun s =>
      match ciDropLit "crush resistance".toList s with
      | none => none
      | some rest => scanFor numWsN rest)
    cs

/-- `_get_generic_value(text, 'Crush Resistance', crush_patterns)`. -/
def genericCrush (text : String) : String :=
  match crushScan1 text.toList with
  | some g => pyStrip (String.mk g)
  | none =>
    match crushScan2 text.toList with
    | some g => pyStrip (String.mk g)
    | none => "N/A"

/-- `\d+\.\d+\s*±\s*\d+\.\d+\s*mm` at the head (`mm` case-insensitive). -/
def diamAt (cs : List Char) : Option (List Char) :=
  let d1 := cs.takeWhile Char.isDigit
  if d1.isEmpty then none
  else
    match cs.drop d1.length with
    | '.' :: r1 =>
      let d2 := r1.takeWhile Char.isDigit
      if d2.isEmpty then none
      else
        let r2 := r1.drop d2.length
        let w1 := r2.takeWhile pySpace
        match r2.drop w1.length with
        | '±' :: r3 =>
          let w2 := r3.takeWhile pySpace
          let r4 := r3.drop w2.length
          let d3 := r4.takeWhile Char.isDigit
          if d3.isEmpty then none
          else
            match r4.drop d3.length with
            | '.' :: r5 =>
              let d4 := r5.takeWhile Char.isDigit
              if d4.isEmpty then none
              else
                let r6 := r5.drop d4.length
                let w3 := r6.takeWhile pySpace
                match r6.drop w3.length with
                | m1 :: m2 :: _ =>
                  if m1.toLower = 'm' && m2.toLower = 'm' then
                    some (d1 ++ '.' :: d2 ++ w1 ++ '±' :: w2 ++ d3 ++ '.' :: d4 ++ w3 ++ [m1, m2])
                  else none
                | _ => none
            | _ => none
        | _ => none
    | _ => none

/-- Lazy `.*?` scan for the diameter group: positions on the current line only
(`.` excludes newlines), though a found group may extend past it. -/
def diamSeg : List Char → Option (List Char)
  | [] => none
  | c :: cs =>
    if c = '\n' then none
    else
      match diamAt (c :: cs) with
      | some g => some g
      | none => diamSeg cs

/-- One search position of
`Cable Diameter\s*.*?(\d+\.\d+\s*±\s*\d+\.\d+\s*mm)` (IGNORECASE). -/
def diamStep (cs : List Char) : Option (List Char) :=
  match ciDropLit "cable diameter".toList cs with
  | none => none
  | some rest => diamSeg (rest.dropWhile pySpace)

/-- The diameter fallback `re.search` of `_parse_single_datasheet`. -/
def diamSearch (text : String) : Option String :=
  (scanFor diamStep text.toList).map (fun g => String.mk g)

/-! ### Variant Discoverer -/

/-- `re.findall(r'\d+', l)`: the maximal digit runs, in order
(`acc` is the reversed current run). -/
def digitRunsGo (acc : List Char) : List Char → List String
  | [] => if acc.isEmpty then [] else [String.mk acc.reverse]
  | c :: cs =>
    if c.isDigit then digitRunsGo (c :: acc) cs
    else if acc.isEmpty then digitRunsGo [] cs
    else String.mk acc.reverse :: digitRunsGo [] cs

/-- `re.findall(r'\d+', l)` on a character list. -/
def digitRuns (l : List Char) : List String :=
  digitRunsGo [] l

/-- `re.split(r'[a-zA-Z]', s)[0]`: the characters before the first ASCII
letter. -/
def takeBeforeAlpha (s : String) : List Char :=
  s.toList.takeWhile (fun c => ¬ c.isAlpha)

/-- `re.findall(r'(\d+)F', text)`: each maximal digit run immediately followed
by `F`, scanning left to right and resuming after the `F`. -/
def textFcsGo (acc : List Char) : List Char → List String
  | [] => []
  | c :: cs =>
    if c.isDigit then textFcsGo (c :: acc) cs
    else if c = 'F' then
      if acc.isEmpty then textFcsGo [] cs
      else String.mk acc.reverse :: textFcsGo [] cs
    else textFcsGo [] cs

/-- `re.findall(r'(\d+)F', text)`. -/
def textFcs (text : String) : List String :=
  textFcsGo [] text.toList

/-- Python `list(set(l))` modelled as first-occurrence deduplication (CPython's
set iteration order is unspecified; only the order among numerically equal,
textually distinct tokens depends on this choice). -/
def dedupGo (seen : List String) : List String → List String
  | [] => []
  | x :: xs => if x ∈ seen then dedupGo seen xs else x :: dedupGo (x :: seen) xs

/-- Stable insertion of `x` by `int` key (`x` goes before the first element
whose key is not smaller, as in Python's stable `sorted`). -/
def insertByInt (x : String) : List String → List String
  | [] => [x]
  | t :: ts => if natOfDigits t < natOfDigits x then t :: insertByInt x ts else x :: t :: ts

/-- `sorted(l, key=int)` (stable). -/
def pySortByInt : List String → List String
  | [] => []
  | x :: xs => insertByInt x (pySortByInt xs)

/-- The Variant Discoverer (lines 122-126 of `_parse_single_datasheet`):
title tokens plus `<digits>F` tokens, deduplicated and sorted numerically. -/
def discoverFiberCounts (text : String) : List String :=
  let base_description := _get_cable_description text
  let title_fcs := digitRuns (takeBeforeAlpha base_description)
  let text_fcs := textFcs text
  pySortByInt (dedupGo [] (title_fcs ++ text_fcs))

/-! ### Record assembly and parsers -/

/-- The output record (`data` dictionary of `_parse_single_datasheet`). -/
structure CableRecord where
  cableID : Nat
  cableDescription : String
  fiberCount : String
  typeofCable : String
  span : String
  tube : String
  tubeColorCoding : String
  fiberType : String
  diameter : String
  tensile : String
  nescCondition : String
  crush : String
  blowingLength : String
  datasheetURL : String
  isActive : String
deriving DecidableEq, Repr, Inhabited

/-- Python's `a or b` for an optional string: `None` and `""` are falsy. -/
def pyOrStr (o : Option String) (fallback : String) : String :=
  match o with
  | some v => if v = "" then fallback else v
  | none => fallback

/-- Python `o` is falsy (`None` or `""`). -/
def pyFalsy (o : Option String) : Bool :=
  match o with
  | some v => v = ""
  | none => true

/-- `s.replace(pat, '')`, all occurrences left to right; the fuel (the input
length bounds the number of steps, each consuming at least one character)
keeps the recursion structural. -/
def replaceAllFuel (pat : List Char) : Nat → List Char → List Char
  | 0, l => l
  | _ + 1, [] => []
  | fuel + 1, c :: cs =>
    if leadMatch pat (c :: cs) then replaceAllFuel pat fuel (cs.drop (pat.length - 1))
    else c :: replaceAllFuel pat fuel cs

/-- Python `s.replace(pat, '')`. -/
def pyDelete (s pat : String) : String :=
  String.mk (replaceAllFuel pat.toList s.toList.length s.toList)

/-- `s.replace('*', '±')` (single-character pattern, so a plain map). -/
def replaceStar (s : String) : String :=
  String.mk (s.toList.map (fun c => if c = '*' then '±' else c))

/-- `_build_descriptive_strings(text, base_description, fc)`. -/
def _build_descriptive_strings (text base_description fc : String) : String × String :=
  let kws1 := if pyContains text "Indoor" then ["Indoor"] else []
  let kws2 := if pyContains text "LSZH" then ["LSZH"] else []
  let kws3 := if pyContains text "Armoured" then ["armoured"] else []
  let tube_type := _get_tube_type text
  let kws4 :=
    if tube_type = "Unitube" then ["unitube"]
    else if tube_type = "Multitube" then ["loose-tube"]
    else []
  let keywords := kws1 ++ kws2 ++ kws3 ++ kws4 ++ ["cable"]
  let typeofCable_str := pyCapitalize (joinSep " " keywords)
  let desc_suffix :=
    if pyContains (pyLower typeofCable_str) "loose-tube" then "Fibre Loose Tube" else "Fibre Cable"
  let cableDescription_str :=
    fc ++ "F " ++ pyStrip (pyDelete base_description (fc ++ "F")) ++ " " ++ desc_suffix
  (cableDescription_str, typeofCable_str)

/-- The loop body of `_parse_single_datasheet`: the record built for one
fiber-count variant. -/
def mkRecord (filename text base_description : String) (fiber_counts : List String)
    (raw_fiber_type env_conditions tube_colors tube_type_str : String) (fc : String) :
    CableRecord :=
  let tensile :=
    pyOrStr (_get_value_from_table text fiber_counts fc "Tensile Strength") (genericTensile text)
  let crush :=
    pyOrStr (_get_value_from_table text fiber_counts fc "Crush Resistance") (genericCrush text)
  let dia0 := _get_value_from_table text fiber_counts fc "Cable Diameter"
  let dia1 :=
    if pyFalsy dia0 then
      match diamSearch text with
      | some g => some g
      | none => dia0
    else dia0
  let built := _build_descriptive_strings text base_description fc
  { cableID := 0
    cableDescription := built.1
    fiberCount := fc ++ "F"
    typeofCable := built.2
    span := "N/A"
    tube := tube_type_str
    tubeColorCoding := tube_colors
    fiberType := raw_fiber_type
    diameter :=
      match dia1 with
      | some d => if d = "" then "N/A" else replaceStar d
      | none => "N/A"
    tensile := tensile
    nescCondition := env_conditions
    crush := if crush = "" then "N/A" else removeCharS '$' crush
    blowingLength := "N/A"
    datasheetURL := filename
    isActive := "Y" }

/-- `_parse_single_datasheet(filename, text)`. -/
def _parse_single_datasheet (filename text : String) : List CableRecord :=
  let base_description := _get_cable_description text
  let fiber_counts := discoverFiberCounts text
  if fiber_counts.isEmpty then []
  else
    let raw_fiber_type := _get_raw_fiber_type text
    let env_conditions := _get_environmental_performance text
    let tube_colors := _get_tube_colors text
    let tube_type_str := _get_tube_type text
    fiber_counts.map
      (mkRecord filename text base_description fiber_counts raw_fiber_type env_conditions
        tube_colors tube_type_str)

/-- The identifier-assignment loop of `parse_datasheets`: each record of one
document receives the current counter value, which then increments. -/
def assignSeq : List CableRecord → Nat → List CableRecord
  | [], _ => []
  | r :: rs, cur => { r with cableID := cur } :: assignSeq rs (cur + 1)

/-- The document loop of `parse_datasheets`, over an abstract per-document
parser `p`; `p fn text = none` models `_parse_single_datasheet` raising an
exception, which the `except` branch turns into skipping that document. -/
def batchLoop (p : String → String → Option (List CableRecord)) :
    List (String × String) → Nat → List CableRecord
  | [], _ => []
  | (filename, content) :: rest, cur =>
    match p filename content with
    | some recs => assignSeq recs cur ++ batchLoop p rest (cur + recs.length)
    | none => batchLoop p rest cur

/-- `parse_datasheets` over an abstract, possibly failing per-document parser. -/
def parse_datasheetsWith (p : String → String → Option (List CableRecord))
    (files : List (String × String)) : List CableRecord :=
  batchLoop p files 0

/-- `parse_datasheets(files)`; the dictionary argument is embedded as an
association list in insertion order.  The embedded single-document parser is a
total function, so no document ever raises. -/
def parse_datasheets (files : List (String × String)) : List CableRecord :=
  parse_datasheetsWith (fun filename content => some (_parse_single_datasheet filename content)) files

/-- A record with its batch identifier erased (for comparing a record's
content independently of its position in a batch). -/
def stripId (r : CableRecord) : CableRecord :=
  { r with cableID := 0 }

/-! ### Specification-side formalizations of the Table Locator claim -/

/-- The Table Locator claim exactly as the specification states it
(C3): the mapped-column / one-left rule, the empty-cell one-further-left
rule, and the unconditional second-cell rule, all applied to the first line
after the header that contains the parameter; a cell the claim asks for that
does not exist yields `none`. -/
def tableLookupClaimed (text : String) (fiber_counts : List String)
    (current_fc parameter : String) : Option String :=
  let lines := splitNl text
  match lines.findIdx? (fun l => isHeaderLine fiber_counts l) with
  | none => none
  | some i =>
    let cmap := buildColMap fiber_counts (splitCells (pyStrip (lines.getD i "")))
    match (lines.drop (i + 1)).find? (fun l => ciContains l parameter) with
    | none => none
    | some line =>
      let parts := splitCells (pyStrip line)
      let clean := fun (s : String) => removeCharS '"' (removeCharS '$' s)
      match assocFind cmap current_fc with
      | some c =>
        let idx : Int := if ciContains (parts.headD "") parameter then (c : Int) else (c : Int) - 1
        match (if 0 ≤ idx then parts.get? idx.toNat else none) with
        | some cell =>
          if cell = "" then
            (if 1 ≤ idx then parts.get? (idx.toNat - 1) else none).map clean
          else some (clean cell)
        | none => none
      | none => (parts.get? 1).map clean

/-- Amended per-row rule, written from the amended claim: a matching line
resolves the mapped column (or one left when the label is not in the first
cell) when that index is in range, with the cleaned-empty fallback one column
left for positive indices; an unmapped target or an out-of-range index falls
back to the second cell when the row has at least two cells, and otherwise
the row yields nothing and scanning continues. -/
def tableRowSpec (cmap : List (String × Nat)) (current_fc parameter : String)
    (line : String) : Option String :=
  if ciContains line parameter then
    let parts := splitCells (pyStrip line)
    match assocFind cmap current_fc with
    | some c =>
      let idx? : Option Nat :=
        if ciContains (parts.headD "") parameter then
          if c < parts.length then some c else none
        else if 1 ≤ c ∧ c - 1 < parts.length then some (c - 1)
        else none
      match idx? with
      | some t =>
        let v := cleanCell (parts.getD t "")
        if v = "" ∧ 0 < t then some (cleanCell (parts.getD (t - 1) "")) else some v
      | none => if 1 < parts.length then some (cleanCell (parts.getD 1 "")) else none
    | none => if 1 < parts.length then some (cleanCell (parts.getD 1 "")) else none
  else none

/-- Amended Table Locator specification: first header line, then the first
later line on which `tableRowSpec` yields a value. -/
def tableLookupSpec (text : String) (fiber_counts : List String)
    (current_fc parameter : String) : Option String :=
  let lines := splitNl text
  match lines.findIdx? (fun l => isHeaderLine fiber_counts l) with
  | none => none
  | some i =>
    let cmap := buildColMap fiber_counts (splitCells (pyStrip (lines.getD i "")))
    (lines.drop (i + 1)).findSome? (tableRowSpec cmap current_fc parameter)

/-! ### Concrete inputs used by witnesses and the counterexample -/

/-- Witness document for C1: one variant, every extractor misses. -/
def exC1text : String := "x 24F"

/-- The single record produced for `exC1text`. -/
def exC1rec : CableRecord := (_parse_single_datasheet "w1.pdf" exC1text).headD default

/-- Witness document for C2: two variants from the body text. -/
def exC2text : String := "q 12F 24F"

/-- C3 counterexample document: the first parameter line has a single cell,
the second parameter line carries the value. -/
def exC3text : String := "Fibre Count ,, 24F\nTensile x\nTensile ,, 100 N"

/-- C6 example document: title line `24/48F Indoor LSZH Cable`, body `96F`. -/
def exC6text : String := "Technical Specifications\n24/48F Indoor LSZH Cable\nbody has 96F here"

/-- C7 witness document: no `<digits>F` token, no leading title digits. -/
def exC7text : String := "Technical Specifications\nIndoor Cable"

/-- Witness document for C10. -/
def exC10text : String := "y 96F"

/-- The single record produced for `exC10text`. -/
def exC10rec : CableRecord := (_parse_single_datasheet "w10.pdf" exC10text).headD default

/-- A record of the batch output used by the C10 witness. -/
def exC10batchRec : CableRecord := (parse_datasheets [("w10.pdf", exC10text)]).headD default

/-! ### The parser over an explicit set materialization

`_parse_single_datasheet` materializes the variant-token set with
`list(set(title_fcs + text_fcs))`; CPython leaves the iteration order of a
string set unspecified (string hashing is randomized across processes), so a
faithful model of "two runs of the program" must treat that order as a
parameter.  The definitions below repeat the parser with the materialization
function explicit; `pySetKeepFirst` (first occurrence kept) is the fixed
choice used by `dedupGo` in the rest of the embedding, and the parsers above
are exactly the `pySetKeepFirst` instances. -/

/-- The token list a document feeds to `set(...)`: `title_fcs + text_fcs`. -/
def variantTokens (text : String) : List String :=
  digitRuns (takeBeforeAlpha (_get_cable_description text)) ++ textFcs text

/-- `listing` is a valid materialization of the set of elements of `l`:
duplicate-free, with exactly the members of `l`, in any order. -/
def IsSetListing (l listing : List String) : Prop :=
  listing.Nodup ∧ (∀ s ∈ listing, s ∈ l) ∧ (∀ s ∈ l, s ∈ listing)

/-- Executable pairwise-distinctness check. -/
def nodupB : List String → Bool
  | [] => true
  | x :: xs => !(xs.contains x) && nodupB xs

/-- Executable validity check of a set materialization. -/
def isSetListingB (l listing : List String) : Bool :=
  nodupB listing && listing.all (fun s => l.contains s) && l.all (fun s => listing.contains s)

/-- The Variant Discoverer with an explicit set materialization. -/
def discoverFiberCountsWith (setList : List String → List String) (text : String) :
    List String :=
  pySortByInt (setList (variantTokens text))

/-- `_parse_single_datasheet` with an explicit set materialization. -/
def _parse_single_datasheetWith (setList : List String → List String)
    (filename text : String) : List CableRecord :=
  let base_description := _get_cable_description text
  let fiber_counts := discoverFiberCountsWith setList text
  if fiber_counts.isEmpty then []
  else
    let raw_fiber_type := _get_raw_fiber_type text
    let env_conditions := _get_environmental_performance text
    let tube_colors := _get_tube_colors text
    let tube_type_str := _get_tube_type text
    fiber_counts.map
      (mkRecord filename text base_description fiber_counts raw_fiber_type env_conditions
        tube_colors tube_type_str)

/-- `parse_datasheets` with an explicit set materialization. -/
def parse_datasheetsOrd (setList : List String → List String)
    (files : List (String × String)) : List CableRecord :=
  batchLoop (fun filename content => some (_parse_single_datasheetWith setList filename content))
    files 0

/-- The embedding's materialization: keep the first occurrence of each token. -/
def pySetKeepFirst : List String → List String :=
  fun l => dedupGo [] l

/-- Another valid materialization of every token set: keep first occurrences,
then reverse. -/
def pySetAlt : List String → List String :=
  fun l => (dedupGo [] l).reverse

/-- C9 counterexample document: the tokens `7` and `007` are textually
distinct but numerically equal, so their relative order after
`sorted(..., key=int)` is decided by the set order alone. -/
def exC9text : String := "7F 007F"

/-- C9 witness document: two variants with distinct numeric values. -/
def exC9tieFreeText : String := "a 12F 24F"

/-! ## Lemmas -/

theorem insertByInt_perm (x : String) (l : List String) : (insertByInt x l).Perm (x :: l) := by
  induction l with
  | nil => exact List.Perm.refl _
  | cons t ts ih =>
    by_cases h : natOfDigits t < natOfDigits x
    · simpa [insertByInt, h] using (ih.cons t).trans (List.Perm.swap x t ts)
    · simp [insertByInt, h]

theorem pySortByInt_perm (l : List String) : (pySortByInt l).Perm l := by
  induction l with
  | nil => exact List.Perm.refl _
  | cons x xs ih => exact (insertByInt_perm x (pySortByInt xs)).trans (ih.cons x)

theorem mem_insertByInt {a x : String} {l : List String} :
    a ∈ insertByInt x l ↔ a = x ∨ a ∈ l := by
  rw [(insertByInt_perm x l).mem_iff]
  simp

theorem insertByInt_sorted {x : String} {l : List String}
    (h : l.Pairwise (fun a b => natOfDigits a ≤ natOfDigits b)) :
    (insertByInt x l).Pairwise (fun a b => natOfDigits a ≤ natOfDigits b) := by
  induction l with
  | nil => simp [insertByInt]
  | cons t ts ih =>
    rcases List.pairwise_cons.mp h with ⟨ht, hts⟩
    by_cases hlt : natOfDigits t < natOfDigits x
    · have : ∀ b ∈ insertByInt x ts, natOfDigits t ≤ natOfDigits b := by
        intro b hb
        rcases mem_insertByInt.mp hb with rfl | hb
        · exact Nat.le_of_lt hlt
        · exact ht b hb
      simpa [insertByInt, hlt] using List.pairwise_cons.mpr ⟨this, ih hts⟩
    · have hx : ∀ b ∈ t :: ts, natOfDigits x ≤ natOfDigits b := by
        intro b hb
        rcases List.mem_cons.mp hb with rfl | hb
        · exact Nat.le_of_not_lt hlt
        · exact Nat.le_trans (Nat.le_of_not_lt hlt) (ht b hb)
      simpa [insertByInt, hlt] using List.pairwise_cons.mpr ⟨hx, h⟩

theorem pySortByInt_sorted (l : List String) :
    (pySortByInt l).Pairwise (fun a b => natOfDigits a ≤ natOfDigits b) := by
  induction l with
  | nil => simp [pySortByInt]
  | cons x xs ih => exact insertByInt_sorted ih

theorem mem_dedupGo {a : String} {seen l : List String} :
    a ∈ dedupGo seen l ↔ a ∈ l ∧ a ∉ seen := by
  induction l generalizing seen with
  | nil => simp [dedupGo]
  | cons x xs ih =>
    by_cases hx : x ∈ seen
    · simp only [dedupGo, if_pos hx, ih, List.mem_cons]
      constructor
      · rintro ⟨h1, h2⟩; exact ⟨Or.inr h1, h2⟩
      · rintro ⟨h1 | h1, h2⟩
        · exact absurd (h1 ▸ hx) h2
        · exact ⟨h1, h2⟩
    · simp only [dedupGo, if_neg hx, List.mem_cons, ih]
      by_cases hax : a = x
      · subst hax; simp [hx]
      · simp [hax]

theorem nodup_dedupGo (seen l : List String) : (dedupGo seen l).Nodup := by
  induction l generalizing seen with
  | nil => simp [dedupGo]
  | cons x xs ih =>
    by_cases hx : x ∈ seen
    · simpa [dedupGo, if_pos hx] using ih seen
    · rw [dedupGo, if_neg hx]
      refine List.nodup_cons.mpr ⟨?_, ih (x :: seen)⟩
      intro hmem
      exact (mem_dedupGo.mp hmem).2 (List.mem_cons_self x seen)

theorem discover_nodup (text : String) : (discoverFiberCounts text).Nodup :=
  (pySortByInt_perm _).symm.nodup (nodup_dedupGo _ _)

theorem discover_sorted (text : String) :
    (discoverFiberCounts text).Pairwise (fun a b => natOfDigits a ≤ natOfDigits b) :=
  pySortByInt_sorted _

theorem mem_discover {s text : String} :
    s ∈ discoverFiberCounts text ↔
      s ∈ digitRuns (takeBeforeAlpha (_get_cable_description text)) ∨ s ∈ textFcs text := by
  unfold discoverFiberCounts
  rw [(pySortByInt_perm _).mem_iff, mem_dedupGo]
  simp

theorem string_data_inj {s t : String} (h : s.data = t.data) : s = t := by
  cases s; cases t; exact congrArg String.mk h

theorem appendF_inj : Function.Injective (fun v : String => v ++ "F") := by
  intro a b h
  have hd : a.data ++ "F".data = b.data ++ "F".data := by
    simpa [String.data_append] using congrArg String.data h
  exact string_data_inj (List.append_cancel_right hd)

theorem parse_single_eq (filename text : String) :
    _parse_single_datasheet filename text =
      (discoverFiberCounts text).map
        (mkRecord filename text (_get_cable_description text) (discoverFiberCounts text)
          (_get_raw_fiber_type text) (_get_environmental_performance text)
          (_get_tube_colors text) (_get_tube_type text)) := by
  unfold _parse_single_datasheet
  by_cases h : (discoverFiberCounts text).isEmpty
  · rw [List.isEmpty_iff] at h
    simp [h]
  · simp [h]

theorem digitRunsGo_props {s : String} {acc : List Char} {l : List Char}
    (hacc : ∀ c ∈ acc, c.isDigit = true) (hs : s ∈ digitRunsGo acc l) :
    s ≠ "" ∧ s.toList.all Char.isDigit = true := by
  induction l generalizing acc with
  | nil =>
    by_cases h : acc.isEmpty
    · simp [digitRunsGo, h] at hs
    · rw [digitRunsGo, if_neg h] at hs
      rcases List.mem_singleton.mp hs with rfl
      rw [List.isEmpty_iff] at h
      refine ⟨?_, ?_⟩
      · intro hcon
        exact h (by simpa using congrArg String.data hcon)
      · simp only [String.toList]
        refine List.all_eq_true.mpr ?_
        intro c hc
        exact hacc c (by simpa using List.mem_reverse.mp (by simpa using hc))
  | cons c cs ih =>
    by_cases hd : c.isDigit
    · rw [digitRunsGo, if_pos hd] at hs
      exact ih (by intro d hdm; rcases List.mem_cons.mp hdm with rfl | hdm
                   · exact hd
                   · exact hacc d hdm) hs
    · rw [digitRunsGo, if_neg hd] at hs
      by_cases hac : acc.isEmpty
      · rw [if_pos hac] at hs
        exact ih (by simp) hs
      · rw [if_neg hac] at hs
        rcases List.mem_cons.mp hs with rfl | hs2
        · rw [List.isEmpty_iff] at hac
          refine ⟨?_, ?_⟩
          · intro hcon
            exact hac (by simpa using congrArg String.data hcon)
          · simp only [String.toList]
            refine List.all_eq_true.mpr ?_
            intro d hdm
            exact hacc d (by simpa using List.mem_reverse.mp (by simpa using hdm))
        · exact ih (by simp) hs2

theorem textFcsGo_props {s : String} {acc : List Char} {l : List Char}
    (hacc : ∀ c ∈ acc, c.isDigit = true) (hs : s ∈ textFcsGo acc l) :
    s ≠ "" ∧ s.toList.all Char.isDigit = true := by
  induction l generalizing acc with
  | nil => simp [textFcsGo] at hs
  | cons c cs ih =>
    by_cases hd : c.isDigit
    · rw [textFcsGo, if_pos hd] at hs
      exact ih (by intro d hdm; rcases List.mem_cons.mp hdm with rfl | hdm
                   · exact hd
                   · exact hacc d hdm) hs
    · rw [textFcsGo, if_neg hd] at hs
      by_cases hf : c = 'F'
      swap
      · rw [if_neg hf] at hs
        exact ih (by simp) hs
      rw [if_pos hf] at hs
      by_cases hac0 : acc.isEmpty
      · rw [if_pos hac0] at hs
        exact ih (by simp) hs
      · rw [if_neg hac0] at hs
        rcases List.mem_cons.mp hs with rfl | hs2
        · have hac : acc ≠ [] := by
            rw [List.isEmpty_iff] at hac0
            exact hac0
          refine ⟨?_, ?_⟩
          · intro hcon
            exact hac (by simpa using congrArg String.data hcon)
          · simp only [String.toList]
            refine List.all_eq_true.mpr ?_
            intro d hdm
            exact hacc d (by simpa using List.mem_reverse.mp (by simpa using hdm))
        · exact ih (by simp) hs2

theorem discover_all_digits {text v : String} (hv : v ∈ discoverFiberCounts text) :
    v ≠ "" ∧ v.toList.all Char.isDigit = true := by
  rcases mem_discover.mp hv with h | h
  · exact digitRunsGo_props (by simp) h
  · exact textFcsGo_props (by simp) h

theorem pyOrStr_falsy {o : Option String} {f : String} (h : pyFalsy o = true) :
    pyOrStr o f = f := by
  cases o with
  | none => rfl
  | some v =>
    have : v = "" := by simpa [pyFalsy] using h
    simp [pyOrStr, this]

theorem mem_assignSeq {r : CableRecord} {recs : List CableRecord} {cur : Nat}
    (h : r ∈ assignSeq recs cur) : ∃ r0 ∈ recs, stripId r = stripId r0 := by
  induction recs generalizing cur with
  | nil => simp [assignSeq] at h
  | cons a as ih =>
    rcases List.mem_cons.mp h with rfl | h2
    · exact ⟨a, List.mem_cons_self a as, rfl⟩
    · rcases ih h2 with ⟨r0, hr0, hstrip⟩
      exact ⟨r0, List.mem_cons_of_mem a hr0, hstrip⟩

theorem mem_batchLoop {p : String → String → Option (List CableRecord)}
    {files : List (String × String)} {cur : Nat} {r : CableRecord}
    (h : r ∈ batchLoop p files cur) :
    ∃ fn c r0, (fn, c) ∈ files ∧ r0 ∈ ((p fn c).getD []) ∧ stripId r = stripId r0 := by
  induction files generalizing cur with
  | nil => simp [batchLoop] at h
  | cons d rest ih =>
    rcases d with ⟨a, b⟩
    cases hp : p a b with
    | none =>
      rw [batchLoop, hp] at h
      rcases ih h with ⟨fn, c, r0, hmem, hr0, hstrip⟩
      exact ⟨fn, c, r0, List.mem_cons_of_mem _ hmem, hr0, hstrip⟩
    | some recs =>
      rw [batchLoop, hp] at h
      rcases List.mem_append.mp h with h2 | h2
      · rcases mem_assignSeq h2 with ⟨r0, hr0, hstrip⟩
        exact ⟨a, b, r0, List.mem_cons_self _ _, by simpa [hp] using hr0, hstrip⟩
      · rcases ih h2 with ⟨fn, c, r0, hmem, hr0, hstrip⟩
        exact ⟨fn, c, r0, List.mem_cons_of_mem _ hmem, hr0, hstrip⟩

theorem assignSeq_length (recs : List CableRecord) :
    ∀ cur, (assignSeq recs cur).length = recs.length := by
  induction recs with
  | nil => intro cur; rfl
  | cons r rs ih => intro cur; simp [assignSeq, ih]

theorem assignSeq_ids (recs : List CableRecord) :
    ∀ cur, (assignSeq recs cur).map (fun r => r.cableID) = List.range' cur recs.length := by
  induction recs with
  | nil => intro cur; rfl
  | cons r rs ih => intro cur; simp [assignSeq, ih, List.range']

theorem assignSeq_stripId (recs : List CableRecord) :
    ∀ cur, (assignSeq recs cur).map stripId = recs.map stripId := by
  induction recs with
  | nil => intro cur; rfl
  | cons r rs ih => intro cur; simp [assignSeq, ih, stripId]

theorem batchLoop_ids (p : String → String → Option (List CableRecord))
    (files : List (String × String)) :
    ∀ cur, (batchLoop p files cur).map (fun r => r.cableID)
      = List.range' cur (batchLoop p files cur).length := by
  induction files with
  | nil => intro cur; rfl
  | cons d rest ih =>
    intro cur
    rcases d with ⟨a, b⟩
    cases hp : p a b with
    | none => simpa [batchLoop, hp] using ih cur
    | some recs =>
      rw [batchLoop, hp, List.map_append, assignSeq_ids, ih (cur + recs.length),
        List.length_append, assignSeq_length]
      have h := List.range'_append cur recs.length
        (batchLoop p rest (cur + recs.length)).length 1
      simp [Nat.add_comm] at h
      simp [h, Nat.add_comm]

theorem batchLoop_skip {p : String → String → Option (List CableRecord)}
    {filename content : String} (h : p filename content = none)
    (xs ys : List (String × String)) :
    ∀ cur, batchLoop p (xs ++ (filename, content) :: ys) cur = batchLoop p (xs ++ ys) cur := by
  induction xs with
  | nil => intro cur; simp [batchLoop, h]
  | cons d rest ih =>
    intro cur
    rcases d with ⟨a, b⟩
    cases hp : p a b with
    | none => simp only [List.cons_append, batchLoop, hp]; exact ih cur
    | some recs => simp [batchLoop, hp, ih]

theorem batchLoop_stripId (p : String → String → Option (List CableRecord))
    (files : List (String × String)) :
    ∀ cur, (batchLoop p files cur).map stripId
      = files.flatMap (fun d => ((p d.1 d.2).getD []).map stripId) := by
  induction files with
  | nil => intro cur; rfl
  | cons d rest ih =>
    intro cur
    rcases d with ⟨a, b⟩
    cases hp : p a b with
    | none => simpa [batchLoop, hp] using ih cur
    | some recs => simp [batchLoop, hp, assignSeq_stripId, ih]

theorem rowScan_cons (cmap : List (String × Nat)) (fc par line : String)
    (rest : List String) :
    rowScan cmap fc par (line :: rest) =
      match tableRowSpec cmap fc par line with
      | some v => some v
      | none => rowScan cmap fc par rest := by
  by_cases hci : ciContains line par
  case neg => simp [rowScan, tableRowSpec, hci]
  case pos =>
    rw [rowScan, tableRowSpec, if_pos hci, if_pos hci]
    cases hcf : assocFind cmap fc with
    | none =>
      dsimp only
      by_cases hl : 1 < (splitCells (pyStrip line)).length
      · simp only [if_pos hl]
      · simp only [if_neg hl]
    | some c =>
      dsimp only
      by_cases hlf : ciContains ((splitCells (pyStrip line)).headD "") par
      · simp only [if_pos hlf]
        by_cases hcn : c < (splitCells (pyStrip line)).length
        · have hcond : (0 : Int) ≤ (c : Int) ∧
              (c : Int) < ((splitCells (pyStrip line)).length : Int) := by omega
          have ht : ((c : Int)).toNat = c := by omega
          simp only [if_pos hcond, if_pos hcn, ht]
          by_cases hv : cleanCell ((splitCells (pyStrip line)).getD c "") = ""
          · by_cases hp : 0 < c
            · simp only [if_pos (And.intro hv (by omega : (0 : Int) < (c : Int))),
                if_pos (And.intro hv hp)]
            · simp only [if_neg (fun h => hp (by exact_mod_cast h.2) :
                  ¬ (cleanCell ((splitCells (pyStrip line)).getD c "") = "" ∧
                    (0 : Int) < (c : Int))),
                if_neg (fun h => hp h.2 :
                  ¬ (cleanCell ((splitCells (pyStrip line)).getD c "") = "" ∧ 0 < c))]
          · simp only [if_neg (fun h => hv h.1 :
                ¬ (cleanCell ((splitCells (pyStrip line)).getD c "") = "" ∧
                  (0 : Int) < (c : Int))),
              if_neg (fun h => hv h.1 :
                ¬ (cleanCell ((splitCells (pyStrip line)).getD c "") = "" ∧ 0 < c))]
        · have hcond : ¬ ((0 : Int) ≤ (c : Int) ∧
              (c : Int) < ((splitCells (pyStrip line)).length : Int)) := by omega
          simp only [if_neg hcond, if_neg hcn]
          by_cases hl : 1 < (splitCells (pyStrip line)).length
          · simp only [if_pos hl]
          · simp only [if_neg hl]
      · simp only [if_neg hlf]
        by_cases hok : 1 ≤ c ∧ c - 1 < (splitCells (pyStrip line)).length
        · have hcond : (0 : Int) ≤ (c : Int) - 1 ∧
              (c : Int) - 1 < ((splitCells (pyStrip line)).length : Int) := by omega
          have ht : ((c : Int) - 1).toNat = c - 1 := by omega
          simp only [if_pos hcond, if_pos hok, ht]
          by_cases hv : cleanCell ((splitCells (pyStrip line)).getD (c - 1) "") = ""
          · by_cases hp : 0 < c - 1
            · simp only [if_pos (And.intro hv (by omega : (0 : Int) < (c : Int) - 1)),
                if_pos (And.intro hv hp)]
            · simp only [if_neg (fun h => (by omega : ¬ (0 : Int) < (c : Int) - 1) h.2 :
                  ¬ (cleanCell ((splitCells (pyStrip line)).getD (c - 1) "") = "" ∧
                    (0 : Int) < (c : Int) - 1)),
                if_neg (fun h => hp h.2 :
                  ¬ (cleanCell ((splitCells (pyStrip line)).getD (c - 1) "") = "" ∧ 0 < c - 1))]
          · simp only [if_neg (fun h => hv h.1 :
                ¬ (cleanCell ((splitCells (pyStrip line)).getD (c - 1) "") = "" ∧
                  (0 : Int) < (c : Int) - 1)),
              if_neg (fun h => hv h.1 :
                ¬ (cleanCell ((splitCells (pyStrip line)).getD (c - 1) "") = "" ∧ 0 < c - 1))]
        · have hcond : ¬ ((0 : Int) ≤ (c : Int) - 1 ∧
              (c : Int) - 1 < ((splitCells (pyStrip line)).length : Int)) := by omega
          simp only [if_neg hcond, if_neg hok]
          by_cases hl : 1 < (splitCells (pyStrip line)).length
          · simp only [if_pos hl]
          · simp only [if_neg hl]

theorem rowScan_eq_findSome (cmap : List (String × Nat)) (fc par : String) :
    ∀ lines : List String, rowScan cmap fc par lines
      = lines.findSome? (tableRowSpec cmap fc par) := by
  intro lines
  induction lines with
  | nil => rfl
  | cons line rest ih =>
    rw [rowScan_cons, List.findSome?_cons, ih]
    cases tableRowSpec cmap fc par line <;> rfl

theorem tableScan_eq_findIdx (fcs : List String) (fc par : String) :
    ∀ lines : List String, tableScan fcs fc par lines =
      match lines.findIdx? (fun l => isHeaderLine fcs l) with
      | none => none
      | some i =>
        rowScan (buildColMap fcs (splitCells (pyStrip (lines.getD i "")))) fc par
          (lines.drop (i + 1)) := by
  intro lines
  induction lines with
  | nil => rfl
  | cons line rest ih =>
    by_cases hh : isHeaderLine fcs line
    · simp only [tableScan, if_pos hh, List.findIdx?_cons, hh]
      simp
    · simp only [tableScan, if_neg hh, List.findIdx?_cons, hh]
      rw [ih]
      cases hfi : rest.findIdx? (fun l => isHeaderLine fcs l) with
      | none => simp [hfi]
      | some i => simp [hfi]

theorem nodupB_iff (l : List String) : nodupB l = true ↔ l.Nodup := by
  induction l with
  | nil => simp [nodupB]
  | cons x xs ih => simp [nodupB, ih, List.elem_iff]

theorem isSetListingB_iff (l listing : List String) :
    isSetListingB l listing = true ↔ IsSetListing l listing := by
  simp [isSetListingB, IsSetListing, nodupB_iff, List.elem_iff, and_assoc]

theorem pySetKeepFirst_isSetListing : ∀ l, IsSetListing l (pySetKeepFirst l) := by
  intro l
  refine ⟨nodup_dedupGo [] l, ?_, ?_⟩
  · intro s hs
    exact (mem_dedupGo.mp hs).1
  · intro s hs
    exact mem_dedupGo.mpr ⟨hs, by simp⟩

theorem pySetAlt_isSetListing : ∀ l, IsSetListing l (pySetAlt l) := by
  intro l
  obtain ⟨hn, hsub, hsup⟩ := pySetKeepFirst_isSetListing l
  refine ⟨List.nodup_reverse.mpr hn, ?_, ?_⟩
  · intro s hs
    exact hsub s (List.mem_reverse.mp hs)
  · intro s hs
    exact List.mem_reverse.mpr (hsup s hs)

theorem assocFind_cons (e : String × Nat) (m : List (String × Nat)) (fc : String) :
    assocFind (e :: m) fc = if e.1 = fc then some e.2 else assocFind m fc := by
  by_cases hp : e.1 = fc <;> simp [assocFind, List.find?_cons, hp]

theorem assocFind_filter_self (m : List (String × Nat)) (fc : String) (idx : Nat) :
    assocFind ((m.filter (fun e => e.1 ≠ fc)) ++ [(fc, idx)]) fc = some idx := by
  induction m with
  | nil => simp [assocFind_cons]
  | cons e rest ih =>
    by_cases hk : e.1 = fc
    · rw [List.filter_cons, if_neg (by simp [hk])]
      exact ih
    · rw [List.filter_cons, if_pos (by simp [hk]), List.cons_append, assocFind_cons, if_neg hk]
      exact ih

theorem assocFind_filter_append {m : List (String × Nat)} {a fc : String} {idx : Nat}
    (h : fc ≠ a) :
    assocFind ((m.filter (fun e => e.1 ≠ a)) ++ [(a, idx)]) fc = assocFind m fc := by
  induction m with
  | nil =>
    simp [assocFind_cons, show ¬ a = fc from fun hc => h hc.symm, assocFind, List.find?]
  | cons e rest ih =>
    by_cases hk : e.1 = a
    · have hne : ¬ e.1 = fc := fun hc => h (hc.symm.trans hk)
      rw [List.filter_cons, if_neg (by simp [hk]), assocFind_cons, if_neg hne]
      exact ih
    · rw [List.filter_cons, if_pos (by simp [hk]), List.cons_append, assocFind_cons,
        assocFind_cons]
      by_cases hf : e.1 = fc
      · rw [if_pos hf, if_pos hf]
      · rw [if_neg hf, if_neg hf]
        exact ih

theorem assocFind_buildColMap_aux (parts : List String) (fcs : List String) :
    ∀ (m : List (String × Nat)) (fc : String),
      assocFind
        (fcs.foldl
          (fun m2 k =>
            match lastIdxWith (k ++ "F") parts with
            | some idx => (m2.filter (fun e => e.1 ≠ k)) ++ [(k, idx)]
            | none => m2)
          m) fc
      = if fc ∈ fcs ∧ (lastIdxWith (fc ++ "F") parts).isSome = true
        then lastIdxWith (fc ++ "F") parts
        else assocFind m fc := by
  induction fcs with
  | nil =>
    intro m fc
    simp
  | cons a rest ih =>
    intro m fc
    rw [List.foldl_cons, ih]
    by_cases hmem : fc ∈ rest ∧ (lastIdxWith (fc ++ "F") parts).isSome = true
    · rw [if_pos hmem, if_pos ⟨List.mem_cons_of_mem a hmem.1, hmem.2⟩]
    · rw [if_neg hmem]
      by_cases hfa : fc = a
      · subst hfa
        cases hL : lastIdxWith (fc ++ "F") parts with
        | some idx =>
          rw [if_pos ⟨List.mem_cons_self fc rest, rfl⟩]
          exact assocFind_filter_self m fc idx
        | none =>
          rw [if_neg (fun hcon => by simpa using hcon.2)]
      · cases hL : lastIdxWith (a ++ "F") parts with
        | some idx =>
          rw [if_neg (fun hcon => hmem ⟨(List.mem_cons.mp hcon.1).resolve_left hfa, hcon.2⟩)]
          exact assocFind_filter_append hfa
        | none =>
          rw [if_neg (fun hcon => hmem ⟨(List.mem_cons.mp hcon.1).resolve_left hfa, hcon.2⟩)]

theorem assocFind_buildColMap (fcs parts : List String) (fc : String) :
    assocFind (buildColMap fcs parts) fc
      = if fc ∈ fcs then lastIdxWith (fc ++ "F") parts else none := by
  unfold buildColMap
  rw [assocFind_buildColMap_aux]
  by_cases hmem : fc ∈ fcs
  · by_cases hs : (lastIdxWith (fc ++ "F") parts).isSome = true
    · rw [if_pos ⟨hmem, hs⟩, if_pos hmem]
    · rw [if_neg (fun h => hs h.2), if_pos hmem]
      cases hL : lastIdxWith (fc ++ "F") parts with
      | none => rfl
      | some i => rw [hL] at hs; simp at hs
  · rw [if_neg (fun h => hmem h.1), if_neg hmem]
    rfl

theorem rowScan_congr {cmap1 cmap2 : List (String × Nat)} {fc par : String}
    (h : assocFind cmap1 fc = assocFind cmap2 fc) :
    ∀ lines : List String, rowScan cmap1 fc par lines = rowScan cmap2 fc par lines := by
  intro lines
  induction lines with
  | nil => rfl
  | cons line rest ih =>
    simp only [rowScan]
    rw [h, ih]

theorem any_congr {fcs1 fcs2 : List String} (hm : ∀ s, s ∈ fcs1 ↔ s ∈ fcs2)
    (f : String → Bool) : fcs1.any f = fcs2.any f := by
  refine Bool.eq_iff_iff.mpr ?_
  rw [List.any_eq_true, List.any_eq_true]
  constructor
  · rintro ⟨x, hx, hfx⟩
    exact ⟨x, (hm x).mp hx, hfx⟩
  · rintro ⟨x, hx, hfx⟩
    exact ⟨x, (hm x).mpr hx, hfx⟩

theorem isHeaderLine_congr {fcs1 fcs2 : List String} (hm : ∀ s, s ∈ fcs1 ↔ s ∈ fcs2)
    (line : String) : isHeaderLine fcs1 line = isHeaderLine fcs2 line := by
  unfold isHeaderLine
  rw [any_congr hm]

theorem getValueFromTable_congr {fcs1 fcs2 : List String}
    (hm : ∀ s, s ∈ fcs1 ↔ s ∈ fcs2) (text fc par : String) :
    _get_value_from_table text fcs1 fc par = _get_value_from_table text fcs2 fc par := by
  unfold _get_value_from_table
  generalize splitNl text = lines
  induction lines with
  | nil => rfl
  | cons line rest ih =>
    simp only [tableScan]
    rw [isHeaderLine_congr hm line]
    by_cases hh : isHeaderLine fcs2 line
    · rw [if_pos hh, if_pos hh]
      refine rowScan_congr ?_ rest
      rw [assocFind_buildColMap, assocFind_buildColMap]
      by_cases hfc : fc ∈ fcs1
      · rw [if_pos hfc, if_pos ((hm fc).mp hfc)]
      · rw [if_neg hfc, if_neg (fun h => hfc ((hm fc).mpr h))]
    · rw [if_neg hh, if_neg hh, ih]

theorem mkRecord_congr {fcs1 fcs2 : List String} (hm : ∀ s, s ∈ fcs1 ↔ s ∈ fcs2)
    (filename text bd rft env cols tts fc : String) :
    mkRecord filename text bd fcs1 rft env cols tts fc
      = mkRecord filename text bd fcs2 rft env cols tts fc := by
  unfold mkRecord
  rw [getValueFromTable_congr hm text fc "Tensile Strength",
    getValueFromTable_congr hm text fc "Crush Resistance",
    getValueFromTable_congr hm text fc "Cable Diameter"]

theorem parse_singleWith_eq (setList : List String → List String) (filename text : String) :
    _parse_single_datasheetWith setList filename text =
      (discoverFiberCountsWith setList text).map
        (mkRecord filename text (_get_cable_description text)
          (discoverFiberCountsWith setList text) (_get_raw_fiber_type text)
          (_get_environmental_performance text) (_get_tube_colors text)
          (_get_tube_type text)) := by
  unfold _parse_single_datasheetWith
  by_cases h : (discoverFiberCountsWith setList text).isEmpty
  · rw [List.isEmpty_iff] at h
    simp [h]
  · simp [h]

theorem discoverWith_perm {L1 L2 : List String → List String}
    (h1 : ∀ l, IsSetListing l (L1 l)) (h2 : ∀ l, IsSetListing l (L2 l)) (text : String) :
    (discoverFiberCountsWith L1 text).Perm (discoverFiberCountsWith L2 text) := by
  obtain ⟨n1, s1a, s1b⟩ := h1 (variantTokens text)
  obtain ⟨n2, s2a, s2b⟩ := h2 (variantTokens text)
  have hperm : (L1 (variantTokens text)).Perm (L2 (variantTokens text)) :=
    (List.perm_ext_iff_of_nodup n1 n2).mpr
      (fun a => ⟨fun ha => s2b a (s1a a ha), fun ha => s1b a (s2a a ha)⟩)
  exact (pySortByInt_perm _).trans (hperm.trans (pySortByInt_perm _).symm)

theorem parse_singleWith_perm {L1 L2 : List String → List String}
    (h1 : ∀ l, IsSetListing l (L1 l)) (h2 : ∀ l, IsSetListing l (L2 l))
    (filename text : String) :
    (_parse_single_datasheetWith L1 filename text).Perm
      (_parse_single_datasheetWith L2 filename text) := by
  rw [parse_singleWith_eq, parse_singleWith_eq]
  have hperm := discoverWith_perm h1 h2 text
  have hm : ∀ s, s ∈ discoverFiberCountsWith L1 text ↔ s ∈ discoverFiberCountsWith L2 text :=
    fun s => hperm.mem_iff
  have heq1 : (discoverFiberCountsWith L1 text).map
        (mkRecord filename text (_get_cable_description text)
          (discoverFiberCountsWith L1 text) (_get_raw_fiber_type text)
          (_get_environmental_performance text) (_get_tube_colors text) (_get_tube_type text))
      = (discoverFiberCountsWith L1 text).map
        (mkRecord filename text (_get_cable_description text)
          (discoverFiberCountsWith L2 text) (_get_raw_fiber_type text)
          (_get_environmental_performance text) (_get_tube_colors text) (_get_tube_type text)) :=
    List.map_congr_left (fun fc _ => mkRecord_congr hm filename text _ _ _ _ _ fc)
  rw [heq1]
  exact hperm.map _

theorem flatMap_perm {α β : Type} {files : List α} {f1 f2 : α → List β}
    (h : ∀ d ∈ files, (f1 d).Perm (f2 d)) :
    (files.flatMap f1).Perm (files.flatMap f2) := by
  induction files with
  | nil => exact List.Perm.refl _
  | cons d rest ih =>
    simp only [List.flatMap_cons]
    exact (h d (List.mem_cons_self d rest)).append
      (ih (fun x hx => h x (List.mem_cons_of_mem d hx)))

theorem parse_datasheetsOrd_stripId (setList : List String → List String)
    (files : List (String × String)) :
    (parse_datasheetsOrd setList files).map stripId
      = files.flatMap (fun d => (_parse_single_datasheetWith setList d.1 d.2).map stripId) := by
  unfold parse_datasheetsOrd
  rw [batchLoop_stripId]
  simp

theorem sorted_nodup_mem_eq :
    ∀ {l1 l2 : List String},
      l1.Pairwise (fun a b => natOfDigits a ≤ natOfDigits b) →
      l2.Pairwise (fun a b => natOfDigits a ≤ natOfDigits b) →
      l1.Nodup → l2.Nodup → (∀ s, s ∈ l1 ↔ s ∈ l2) →
      (∀ a ∈ l1, ∀ b ∈ l1, natOfDigits a = natOfDigits b → a = b) →
      l1 = l2 := by
  intro l1
  induction l1 with
  | nil =>
    intro l2 _ _ _ _ hmem _
    cases l2 with
    | nil => rfl
    | cons b t2 => exact absurd ((hmem b).mpr (List.mem_cons_self b t2)) (by simp)
  | cons a t1 ih =>
    intro l2 s1 s2 n1 n2 hmem hties
    cases l2 with
    | nil => exact absurd ((hmem a).mp (List.mem_cons_self a t1)) (by simp)
    | cons b t2 =>
      have hab : a = b := by
        rcases List.mem_cons.mp ((hmem a).mp (List.mem_cons_self a t1)) with h | hat2
        · exact h
        rcases List.mem_cons.mp ((hmem b).mpr (List.mem_cons_self b t2)) with h | hbt1
        · exact h.symm
        have hab2 : natOfDigits a ≤ natOfDigits b :=
          (List.pairwise_cons.mp s1).1 b hbt1
        have hba : natOfDigits b ≤ natOfDigits a :=
          (List.pairwise_cons.mp s2).1 a hat2
        exact hties a (List.mem_cons_self a t1) b (List.mem_cons_of_mem a hbt1)
          (Nat.le_antisymm hab2 hba)
      subst hab
      have ht1a : a ∉ t1 := (List.nodup_cons.mp n1).1
      have ht2a : a ∉ t2 := (List.nodup_cons.mp n2).1
      congr 1
      refine ih (List.pairwise_cons.mp s1).2 (List.pairwise_cons.mp s2).2
        (List.nodup_cons.mp n1).2 (List.nodup_cons.mp n2).2 ?_ ?_
      · intro s
        constructor
        · intro hs
          rcases List.mem_cons.mp ((hmem s).mp (List.mem_cons_of_mem a hs)) with h | h
          · exact absurd (h ▸ hs) ht1a
          · exact h
        · intro hs
          rcases List.mem_cons.mp ((hmem s).mpr (List.mem_cons_of_mem a hs)) with h | h
          · exact absurd (h ▸ hs) ht2a
          · exact h
      · intro x hx y hy
        exact hties x (List.mem_cons_of_mem a hx) y (List.mem_cons_of_mem a hy)

theorem discoverWith_eq_of_no_ties {L1 L2 : List String → List String}
    (h1 : ∀ l, IsSetListing l (L1 l)) (h2 : ∀ l, IsSetListing l (L2 l)) (text : String)
    (hties : ∀ a ∈ variantTokens text, ∀ b ∈ variantTokens text,
      natOfDigits a = natOfDigits b → a = b) :
    discoverFiberCountsWith L1 text = discoverFiberCountsWith L2 text := by
  obtain ⟨n1, s1a, _⟩ := h1 (variantTokens text)
  have hmem1 : ∀ s, s ∈ discoverFiberCountsWith L1 text → s ∈ variantTokens text := by
    intro s hs
    exact s1a s ((pySortByInt_perm _).mem_iff.mp hs)
  refine sorted_nodup_mem_eq (pySortByInt_sorted _) (pySortByInt_sorted _)
    ((pySortByInt_perm _).symm.nodup n1)
    ((pySortByInt_perm _).symm.nodup (h2 (variantTokens text)).1)
    (fun s => (discoverWith_perm h1 h2 text).mem_iff) ?_
  intro a ha b hb hk
  exact hties a (hmem1 a ha) b (hmem1 b hb) hk

theorem batchLoop_congr {p1 p2 : String → String → Option (List CableRecord)}
    (files : List (String × String)) (h : ∀ d ∈ files, p1 d.1 d.2 = p2 d.1 d.2) :
    ∀ cur, batchLoop p1 files cur = batchLoop p2 files cur := by
  induction files with
  | nil => intro cur; rfl
  | cons d rest ih =>
    intro cur
    rcases d with ⟨a, b⟩
    have hd := h (a, b) (List.mem_cons_self _ _)
    simp only [batchLoop, hd]
    cases p2 a b with
    | none =>
      dsimp only
      exact ih (fun x hx => h x (List.mem_cons_of_mem _ hx)) cur
    | some recs =>
      dsimp only
      rw [ih (fun x hx => h x (List.mem_cons_of_mem _ hx))]

/-- The embedded batch parser is the keep-first instance of the
set-materialization-parameterized parser. -/
theorem parse_datasheets_eq_keepFirst :
    parse_datasheets = parse_datasheetsOrd pySetKeepFirst := rfl

/-! ## Claim theorems -/

/-- C1: every record the Datasheet Parser emits is fully populated (every
field is a total `String`, and the embedded extraction routines are total
functions, so no extraction can raise); the always-unsupported fields carry
the sentinel, and whenever a field's extraction routine finds nothing — its
substring tests fail and its pattern scanners return `none` (for the
per-variant fields, the table lookup is additionally falsy for every
variant) — that field equals the sentinel `"N/A"`. -/
theorem C1_fields_populated_sentinel (filename text : String) (r : CableRecord)
    (hr : r ∈ _parse_single_datasheet filename text) :
    (r.span = "N/A" ∧ r.blowingLength = "N/A" ∧ r.isActive = "Y" ∧ r.datasheetURL = filename) ∧
    (pyContains text "Unitube" = false → pyContains text "Multitube" = false →
      scanFor looseTubesStep text.toList = none → r.tube = "N/A") ∧
    (scanFor tubeColorsStep text.toList = none → r.tubeColorCoding = "N/A") ∧
    (scanFor fiberTypeStep text.toList = none → r.fiberType = "N/A") ∧
    (scanFor envStep text.toList = none → r.nescCondition = "N/A") ∧
    (tensileScan1 text.toList = none → tensileScan2 text.toList = none →
      (∀ fc ∈ discoverFiberCounts text,
        pyFalsy (_get_value_from_table text (discoverFiberCounts text) fc "Tensile Strength") = true) →
      r.tensile = "N/A") ∧
    (crushScan1 text.toList = none → crushScan2 text.toList = none →
      (∀ fc ∈ discoverFiberCounts text,
        pyFalsy (_get_value_from_table text (discoverFiberCounts text) fc "Crush Resistance") = true) →
      r.crush = "N/A") ∧
    ((scanFor diamStep text.toList = none) →
      (∀ fc ∈ discoverFiberCounts text,
        pyFalsy (_get_value_from_table text (discoverFiberCounts text) fc "Cable Diameter") = true) →
      r.diameter = "N/A") := by
  rw [parse_single_eq] at hr
  rcases List.mem_map.mp hr with ⟨fc, hfc, rfl⟩
  refine ⟨⟨rfl, rfl, rfl, rfl⟩, ?_, ?_, ?_, ?_, ?_, ?_, ?_⟩
  · intro h1 h2 h3
    have h3d : scanFor looseTubesStep text.data = none := h3
    simp [mkRecord, _get_tube_type, h1, h2, h3d]
  · intro h
    have hd : scanFor tubeColorsStep text.data = none := h
    simp [mkRecord, _get_tube_colors, hd]
  · intro h
    have hd : scanFor fiberTypeStep text.data = none := h
    simp [mkRecord, _get_raw_fiber_type, hd]
  · intro h
    have hd : scanFor envStep text.data = none := h
    simp [mkRecord, _get_environmental_performance, hd]
  · intro h1 h2 h3
    have h1d : tensileScan1 text.data = none := h1
    have h2d : tensileScan2 text.data = none := h2
    show pyOrStr (_get_value_from_table text (discoverFiberCounts text) fc "Tensile Strength")
      (genericTensile text) = "N/A"
    rw [pyOrStr_falsy (h3 fc hfc)]
    simp [genericTensile, h1d, h2d]
  · intro h1 h2 h3
    have h1d : crushScan1 text.data = none := h1
    have h2d : crushScan2 text.data = none := h2
    have hc : genericCrush text = "N/A" := by simp [genericCrush, h1d, h2d]
    have hcrush : pyOrStr (_get_value_from_table text (discoverFiberCounts text) fc
        "Crush Resistance") (genericCrush text) = "N/A" := by
      rw [pyOrStr_falsy (h3 fc hfc), hc]
    simp only [mkRecord, hcrush]
    decide
  · intro h1 h2
    have h1d : scanFor diamStep text.data = none := h1
    have hfalsy := h2 fc hfc
    have hds : diamSearch text = none := by simp [diamSearch, h1d]
    simp only [mkRecord, hds, hfalsy, if_pos]
    cases ho : _get_value_from_table text (discoverFiberCounts text) fc "Cable Diameter" with
    | none => simp [ho]
    | some v =>
      have hv : v = "" := by simpa [pyFalsy, ho] using hfalsy
      simp [ho, hv]

/-- Witness for C1: a one-variant document on which every extractor misses. -/
theorem C1_fields_populated_sentinel_witness :
    exC1rec ∈ _parse_single_datasheet "w1.pdf" exC1text ∧
      exC1rec.span = "N/A" ∧ exC1rec.tube = "N/A" ∧ exC1rec.tensile = "N/A" :=
  ⟨by decide,
    (C1_fields_populated_sentinel "w1.pdf" exC1text exC1rec (by decide)).1.1,
    (C1_fields_populated_sentinel "w1.pdf" exC1text exC1rec (by decide)).2.1
      (by decide) (by decide) (by decide),
    (C1_fields_populated_sentinel "w1.pdf" exC1text exC1rec (by decide)).2.2.2.2.2.1
      (by decide) (by decide) (by decide)⟩

/-- C2: when the Variant Discoverer finds `k ≥ 1` variants, the Datasheet
Parser emits exactly `k` records, in the discoverer's ascending numeric
order, one per variant with its distinct `<variant>F` token, and all records
agree on the document-wide fields (tube, tubeColorCoding, fiberType,
nescCondition, datasheetURL). -/
theorem C2_one_record_per_variant (filename text : String) (k : Nat)
    (hk : (discoverFiberCounts text).length = k) (_hpos : 1 ≤ k) :
    (_parse_single_datasheet filename text).length = k ∧
    (_parse_single_datasheet filename text).map (fun r => r.fiberCount)
      = (discoverFiberCounts text).map (fun v => v ++ "F") ∧
    ((_parse_single_datasheet filename text).map (fun r => r.fiberCount)).Nodup ∧
    (discoverFiberCounts text).Pairwise (fun a b => natOfDigits a ≤ natOfDigits b) ∧
    (∀ r ∈ _parse_single_datasheet filename text, ∀ r2 ∈ _parse_single_datasheet filename text,
      r.tube = r2.tube ∧ r.tubeColorCoding = r2.tubeColorCoding ∧ r.fiberType = r2.fiberType ∧
      r.nescCondition = r2.nescCondition ∧ r.datasheetURL = r2.datasheetURL) := by
  have hmap : (_parse_single_datasheet filename text).map (fun r => r.fiberCount)
      = (discoverFiberCounts text).map (fun v => v ++ "F") := by
    rw [parse_single_eq, List.map_map]
    rfl
  refine ⟨?_, hmap, ?_, discover_sorted text, ?_⟩
  · rw [parse_single_eq, List.length_map, hk]
  · rw [hmap]
    exact (discover_nodup text).map appendF_inj
  · intro r hr r2 hr2
    rw [parse_single_eq] at hr hr2
    rcases List.mem_map.mp hr with ⟨v, hv, rfl⟩
    rcases List.mem_map.mp hr2 with ⟨v2, hv2, rfl⟩
    exact ⟨rfl, rfl, rfl, rfl, rfl⟩

/-- Witness for C2 at a two-variant document. -/
theorem C2_one_record_per_variant_witness :
    (discoverFiberCounts exC2text).length = 2 ∧
      (_parse_single_datasheet "w2.pdf" exC2text).length = 2 :=
  ⟨by decide, (C2_one_record_per_variant "w2.pdf" exC2text 2 (by decide) (by decide)).1⟩

/-- C10: every emitted record's `fiberCount` is a nonempty digit string
immediately followed by `F` (never the bare number), for the Datasheet Parser
and for the Batch Parser. -/
theorem C10_fiberCount_suffixed :
    (∀ filename text : String, ∀ r ∈ _parse_single_datasheet filename text,
      ∃ v, v ∈ discoverFiberCounts text ∧ v ≠ "" ∧ v.toList.all Char.isDigit = true ∧
        r.fiberCount = v ++ "F") ∧
    (∀ files : List (String × String), ∀ r ∈ parse_datasheets files,
      ∃ v, v ≠ "" ∧ v.toList.all Char.isDigit = true ∧ r.fiberCount = v ++ "F") := by
  have single : ∀ filename text : String, ∀ r ∈ _parse_single_datasheet filename text,
      ∃ v, v ∈ discoverFiberCounts text ∧ v ≠ "" ∧ v.toList.all Char.isDigit = true ∧
        r.fiberCount = v ++ "F" := by
    intro filename text r hr
    rw [parse_single_eq] at hr
    rcases List.mem_map.mp hr with ⟨v, hv, rfl⟩
    exact ⟨v, hv, (discover_all_digits hv).1, (discover_all_digits hv).2, rfl⟩
  refine ⟨single, ?_⟩
  intro files r hr
  rcases mem_batchLoop hr with ⟨fn, c, r0, hmem, hr0, hstrip⟩
  have hr0m : r0 ∈ _parse_single_datasheet fn c := by simpa using hr0
  rcases single fn c r0 hr0m with ⟨v, _, hne, hdig, hfc⟩
  have hfcEq : r.fiberCount = r0.fiberCount := by
    have h2 := congrArg CableRecord.fiberCount hstrip
    simpa [stripId] using h2
  exact ⟨v, hne, hdig, hfcEq.trans hfc⟩

/-- Witness for C10: a concrete parsed record and a concrete batch record. -/
theorem C10_fiberCount_suffixed_witness :
    exC10rec ∈ _parse_single_datasheet "w10.pdf" exC10text ∧
      exC10batchRec ∈ parse_datasheets [("w10.pdf", exC10text)] ∧
      (∃ v, v ∈ discoverFiberCounts exC10text ∧ v ≠ "" ∧ v.toList.all Char.isDigit = true ∧
        exC10rec.fiberCount = v ++ "F") ∧
      (∃ v, v ≠ "" ∧ v.toList.all Char.isDigit = true ∧ exC10batchRec.fiberCount = v ++ "F") :=
  ⟨by decide, by decide,
    C10_fiberCount_suffixed.1 "w10.pdf" exC10text exC10rec (by decide),
    C10_fiberCount_suffixed.2 [("w10.pdf", exC10text)] exC10batchRec (by decide)⟩

/-- C3 counterexample: the Table Locator claim as stated — result taken from
the first parameter-bearing line after the header, with an unconditional
second-cell fallback for an unmapped target — is false: on this document the
first parameter line has a single cell (so the claimed lookup has no value to
return), while the code keeps scanning and returns `"100 N"` from the second
parameter line. -/
theorem C3_table_locator_counterexample :
    _get_value_from_table exC3text ["24", "7"] "7" "Tensile"
      ≠ tableLookupClaimed exC3text ["24", "7"] "7" "Tensile" := by
  decide

/-- C3 amended: the Table Locator returns not-found when no line contains
both `"Fibre Count"` and a known variant suffixed `F`; otherwise it scans the
lines after the first header line and returns the first value produced by a
parameter-bearing row, where a row resolves the target's mapped column (or
one column left when the parameter does not occur in the first cell) if that
index is in range — falling back one further column left when the cleaned
cell is empty and the index positive — and otherwise falls back to the
cleaned second cell when the row has at least two cells, the row yielding
nothing (and scanning continuing) when it has fewer; `'$'`, `'"'` and outer
whitespace are stripped from every returned value. -/
theorem C3_table_locator_amended (text : String) (fiber_counts : List String)
    (current_fc parameter : String) :
    _get_value_from_table text fiber_counts current_fc parameter
      = tableLookupSpec text fiber_counts current_fc parameter := by
  unfold _get_value_from_table tableLookupSpec
  rw [tableScan_eq_findIdx]
  cases h : (splitNl text).findIdx? (fun l => isHeaderLine fiber_counts l) with
  | none => simp only [h]
  | some i =>
    simp only [h]
    rw [rowScan_eq_findSome]

/-- C4: the Batch Parser's identifiers form `0, 1, 2, …` in result order, so
they are unique integers assigned in strictly increasing order matching the
order of the records. -/
theorem C4_ids_strictly_increasing (files : List (String × String)) :
    (parse_datasheets files).map (fun r => r.cableID)
      = List.range (parse_datasheets files).length ∧
    (parse_datasheets files).Pairwise (fun a b => a.cableID < b.cableID) := by
  have ids : (parse_datasheets files).map (fun r => r.cableID)
      = List.range (parse_datasheets files).length := by
    rw [List.range_eq_range']
    exact batchLoop_ids _ files 0
  refine ⟨ids, ?_⟩
  have h := List.pairwise_lt_range (parse_datasheets files).length
  rw [← ids] at h
  exact List.pairwise_map.mp h

/-- C8: a document whose parse raises (modelled as the per-document parser
returning `none`) contributes zero records and does not abort the batch: the
output equals the output on the batch without that document; moreover each
document's records in any batch are exactly its records when processed alone,
in the same relative order, up to the batch-level identifier assignment. -/
theorem C8_failure_isolation (p : String → String → Option (List CableRecord))
    (xs ys : List (String × String)) (filename content : String)
    (h : p filename content = none) :
    parse_datasheetsWith p (xs ++ (filename, content) :: ys)
      = parse_datasheetsWith p (xs ++ ys) ∧
    (parse_datasheetsWith p (xs ++ (filename, content) :: ys)).map stripId
      = (xs ++ ys).flatMap (fun d => (parse_datasheetsWith p [d]).map stripId) := by
  have hskip : parse_datasheetsWith p (xs ++ (filename, content) :: ys)
      = parse_datasheetsWith p (xs ++ ys) := batchLoop_skip h xs ys 0
  refine ⟨hskip, ?_⟩
  rw [hskip]
  show (batchLoop p (xs ++ ys) 0).map stripId = _
  rw [batchLoop_stripId]
  refine congrArg _ (funext fun d => ?_)
  show ((p d.1 d.2).getD []).map stripId = (batchLoop p [d] 0).map stripId
  rw [batchLoop_stripId]
  simp

/-- Witness for C8: a batch whose only middle document fails. -/
theorem C8_failure_isolation_witness :
    parse_datasheetsWith (fun _ _ => none) ([] ++ ("f.pdf", "t") :: [])
        = parse_datasheetsWith (fun _ _ => none) ([] ++ []) ∧
      (parse_datasheetsWith (fun _ _ => none) ([] ++ ("f.pdf", "t") :: [])).map stripId
        = ([] ++ [] : List (String × String)).flatMap
            (fun d => (parse_datasheetsWith (fun _ _ => none) [d]).map stripId) :=
  C8_failure_isolation (fun _ _ => none) [] [] "f.pdf" "t" rfl

/-- C9 counterexample: the determinism claim is false of the program.  The
code materializes the variant-token set with `list(set(...))`, whose
iteration order CPython leaves unspecified (string hashing is randomized
across processes), so a run of the Batch Parser carries that order as an
implicit input.  On a document containing the numerically equal, textually
distinct tokens `7` and `007`, two valid materializations of the same token
set — both certified here — yield different record sequences: the `7F` and
`007F` records swap positions and therefore swap `cableID`s. -/
theorem C9_set_order_counterexample :
    isSetListingB (variantTokens exC9text) (pySetKeepFirst (variantTokens exC9text)) = true ∧
    isSetListingB (variantTokens exC9text) (pySetAlt (variantTokens exC9text)) = true ∧
    parse_datasheetsOrd pySetKeepFirst [("d.pdf", exC9text)]
      ≠ parse_datasheetsOrd pySetAlt [("d.pdf", exC9text)] :=
  ⟨by decide, by decide, by decide⟩

/-- C9 amended: the Batch Parser is deterministic up to the unspecified
set-materialization order.  For any two valid materializations of the
variant-token sets and equal document mappings: runs with the same
materialization give identical outputs; the outputs of any two
materializations carry the same records up to reordering (equal as multisets
after erasing identifiers) and both number their records `0, 1, 2, …` in
emission order; and whenever no document yields two textually distinct
variant tokens with the same numeric value, the outputs are fully identical,
identifiers included. -/
theorem C9_deterministic_up_to_set_order
    (L1 L2 : List String → List String)
    (h1 : ∀ l, IsSetListing l (L1 l)) (h2 : ∀ l, IsSetListing l (L2 l))
    (files1 files2 : List (String × String)) (heq : files1 = files2) :
    (L1 = L2 → parse_datasheetsOrd L1 files1 = parse_datasheetsOrd L2 files2) ∧
    ((parse_datasheetsOrd L1 files1).map stripId).Perm
      ((parse_datasheetsOrd L2 files2).map stripId) ∧
    ((parse_datasheetsOrd L1 files1).map (fun r => r.cableID)
      = List.range (parse_datasheetsOrd L1 files1).length) ∧
    ((parse_datasheetsOrd L2 files2).map (fun r => r.cableID)
      = List.range (parse_datasheetsOrd L2 files2).length) ∧
    ((∀ d ∈ files1, ∀ a ∈ variantTokens d.2, ∀ b ∈ variantTokens d.2,
        natOfDigits a = natOfDigits b → a = b) →
      parse_datasheetsOrd L1 files1 = parse_datasheetsOrd L2 files2) := by
  subst heq
  refine ⟨?_, ?_, ?_, ?_, ?_⟩
  · intro hL
    rw [hL]
  · rw [parse_datasheetsOrd_stripId, parse_datasheetsOrd_stripId]
    exact flatMap_perm (fun d _ => (parse_singleWith_perm h1 h2 d.1 d.2).map stripId)
  · rw [List.range_eq_range']
    exact batchLoop_ids _ files1 0
  · rw [List.range_eq_range']
    exact batchLoop_ids _ files1 0
  · intro hties
    unfold parse_datasheetsOrd
    refine batchLoop_congr files1 ?_ 0
    intro d hd
    have hdisc := discoverWith_eq_of_no_ties h1 h2 d.2 (hties d hd)
    rw [parse_singleWith_eq, parse_singleWith_eq, hdisc]

/-- Witness for the amended C9: on a tie-free document the keep-first and
reversed materializations give identical batch outputs. -/
theorem C9_deterministic_up_to_set_order_witness :
    parse_datasheetsOrd pySetKeepFirst [("w9.pdf", exC9tieFreeText)]
      = parse_datasheetsOrd pySetAlt [("w9.pdf", exC9tieFreeText)] :=
  (C9_deterministic_up_to_set_order pySetKeepFirst pySetAlt
    pySetKeepFirst_isSetListing pySetAlt_isSetListing
    [("w9.pdf", exC9tieFreeText)] [("w9.pdf", exC9tieFreeText)] rfl).2.2.2.2
    (by decide)

/-- C5: on the two-line table
`"Fibre Count ,, 24F ,, 48F\nTensile Strength,,150 N,,200 N"` with known
variants `["24","48"]`, target variant `"48"` and parameter
`"Tensile Strength"`, the Table Locator lookup returns `"200 N"`. -/
theorem C5_concrete_table_lookup :
    _get_value_from_table "Fibre Count ,, 24F ,, 48F\nTensile Strength,,150 N,,200 N"
      ["24", "48"] "48" "Tensile Strength" = some "200 N" := by
  decide

/-- C6: the Variant Discoverer returns exactly the union of the title-line
digit groups (before the first letter) and the `<digits>F` digit groups of the
whole text, without duplicates and sorted ascending by numeric value; in
particular, for a document titled `24/48F Indoor LSZH Cable` whose body
contains `96F`, it returns `["24", "48", "96"]`. -/
theorem C6_variant_discovery :
    (∀ text s : String,
        (s ∈ discoverFiberCounts text ↔
          s ∈ digitRuns (takeBeforeAlpha (_get_cable_description text)) ∨ s ∈ textFcs text) ∧
        (discoverFiberCounts text).Nodup ∧
        (discoverFiberCounts text).Pairwise (fun a b => natOfDigits a ≤ natOfDigits b)) ∧
      discoverFiberCounts exC6text = ["24", "48", "96"] := by
  refine ⟨fun text s => ⟨mem_discover, discover_nodup text, discover_sorted text⟩, ?_⟩
  decide

/-- C7: a document whose text has no `<digits>F` substring and whose title
line has no digit group before its first letter yields no records and no
error (the embedded parser is total). -/
theorem C7_no_variant_no_records (filename text : String)
    (htext : textFcs text = [])
    (htitle : digitRuns (takeBeforeAlpha (_get_cable_description text)) = []) :
    _parse_single_datasheet filename text = [] := by
  simp [_parse_single_datasheet, discoverFiberCounts, htext, htitle, dedupGo, pySortByInt]

/-- Witness for C7 at a concrete document. -/
theorem C7_no_variant_no_records_witness :
    textFcs exC7text = [] ∧
      digitRuns (takeBeforeAlpha (_get_cable_description exC7text)) = [] ∧
      _parse_single_datasheet "w7.pdf" exC7text = [] :=
  ⟨by decide, by decide, C7_no_variant_no_records "w7.pdf" exC7text (by decide) (by decide)⟩

end Scraper
